import Mathlib

/-!
Verification of the smartfarm message-driven aggregation engine.

The development shallowly embeds the core data structures and algorithms of
the repository:

* the per-series bounded history manager of src/utils/dataHistory.ts
  (value validation, append with front eviction, windowed queries,
  statistics and status distribution);
* the topic-tree builder of src/utils/mqttTreeParser.ts;
* the chart merge and resampling pipeline of src/components/ChartView.tsx
  (moving average, interval bucket average, median bucketing).

Numeric sensor values are modelled as rationals: every rational is a finite
number, so the isNaN and isFinite guards of the source accept every modelled
value.  Timestamps are integers (epoch milliseconds).  JS strings are
modelled as Lean strings, with case folding and substring search performed
on the underlying character lists.
-/

/-! ## String helpers (JS toLowerCase and includes) -/

/-- JS s.includes(sub) on character lists: sub occurs contiguously in s. -/
def listIncludes (s sub : List Char) : Bool := decide (sub <:+: s)

/-- JS s.includes(sub) on strings. -/
def strIncludes (s sub : String) : Bool := listIncludes s.data sub.data

/-- JS s.toLowerCase(), modelled per character on the underlying list. -/
def jsToLower (s : String) : List Char := s.data.map Char.toLower

/-! ## dataHistory.ts: data model -/

/-- The status field of a SensorDataPoint. -/
inductive SensorStatus
  | low
  | normal
  | warning
  | danger
deriving DecidableEq, Repr

/-- SensorDataPoint of dataHistory.ts. -/
structure SensorDataPoint where
  timestamp : Int
  value : ℚ
  status : SensorStatus
  cardId : String
  cardTitle : String
  unit : String
deriving DecidableEq, Repr

/-- SensorHistory of dataHistory.ts: a JS object mapping cardId to its
points, modelled as an association list with unique keys in insertion
order. -/
abbrev SensorHistory := List (String × List SensorDataPoint)

/-- JS this.history[cardId] with missing keys read as the empty list
(the manager creates the entry before its first use). -/
def getHist : SensorHistory → String → List SensorDataPoint
  | [], _ => []
  | (c', pts) :: rest, c => if c' = c then pts else getHist rest c

/-- JS this.history[cardId] = pts: overwrite in place, or append a new key. -/
def setHist : SensorHistory → String → List SensorDataPoint → SensorHistory
  | [], c, pts => [(c, pts)]
  | (c', pts') :: rest, c, pts =>
    if c' = c then (c, pts) :: rest else (c', pts') :: setHist rest c pts

/-- MAX_HISTORY_POINTS of dataHistory.ts. -/
def MAX_HISTORY_POINTS : Nat := 1000

/-! ## dataHistory.ts: validation -/

/-- Temperature branch of isValidSensorValue: the lowered title contains
a temperature keyword, or the raw cardId contains the string temperature. -/
def tempMatch (cardId cardTitle : String) : Bool :=
  let titleLower := jsToLower cardTitle
  listIncludes titleLower "온도".data || listIncludes titleLower "temp".data ||
    strIncludes cardId "temperature"

/-- Humidity branch of isValidSensorValue. -/
def humidMatch (cardId cardTitle : String) : Bool :=
  let titleLower := jsToLower cardTitle
  listIncludes titleLower "습도".data || listIncludes titleLower "humid".data ||
    strIncludes cardId "humidity"

/-- Soil moisture branch of isValidSensorValue (title keywords only). -/
def soilMatch (cardTitle : String) : Bool :=
  let titleLower := jsToLower cardTitle
  listIncludes titleLower "토양".data || listIncludes titleLower "수분".data ||
    listIncludes titleLower "soil".data || listIncludes titleLower "moisture".data

/-- Illuminance branch of isValidSensorValue (title keywords only). -/
def lightMatch (cardTitle : String) : Bool :=
  let titleLower := jsToLower cardTitle
  listIncludes titleLower "조도".data || listIncludes titleLower "광량".data ||
    listIncludes titleLower "light".data || listIncludes titleLower "lux".data

/-- CO2 branch of isValidSensorValue (title keywords only). -/
def co2Match (cardTitle : String) : Bool :=
  let titleLower := jsToLower cardTitle
  listIncludes titleLower "co2".data || listIncludes titleLower "이산화탄소".data

/-- isValidSensorValue of dataHistory.ts: category selection by keyword
matching, then a category-specific range check. -/
def isValidSensorValue (cardId : String) (value : ℚ) (cardTitle : String) : Bool :=
  if tempMatch cardId cardTitle then
    decide (-50 ≤ value) && decide (value ≤ 80) && decide (value ≠ 0)
  else if humidMatch cardId cardTitle then
    decide (0 < value) && decide (value ≤ 100)
  else if soilMatch cardTitle then
    decide (0 < value) && decide (value ≤ 100)
  else if lightMatch cardTitle then
    decide (0 ≤ value) && decide (value ≤ 200000)
  else if co2Match cardTitle then
    decide (300 ≤ value) && decide (value ≤ 5000)
  else
    decide (value ≠ 0) && decide (-1000000 ≤ value) && decide (value ≤ 1000000)

/-! ## dataHistory.ts: append with retention -/

/-- JS array.slice(-n) for positive n bounded by the length: the last n
elements. -/
def lastN (n : Nat) (l : List α) : List α := l.drop (l.length - n)

/-- The retention step of addDataPoint: when the list exceeds maxPoints,
keep only the last maxPoints entries. -/
def clampPts (maxPoints : Nat) (l : List SensorDataPoint) : List SensorDataPoint :=
  if maxPoints < l.length then lastN maxPoints l else l

/-- addDataPoint of dataHistory.ts.  maxPoints is the manager field
(MAX_HISTORY_POINTS unless changed); now models Date.now() at the call.
The typeof, isNaN and isFinite guards always pass for a rational value,
and the falsy check on cardId rejects exactly the empty string. -/
def addDataPoint (maxPoints : Nat) (h : SensorHistory) (cardId : String) (value : ℚ)
    (status : SensorStatus) (cardTitle unit : String) (now : Int) : SensorHistory :=
  if cardId = "" then h
  else if ¬ isValidSensorValue cardId value cardTitle then h
  else
    setHist h cardId
      (clampPts maxPoints
        (getHist h cardId ++ [⟨now, value, status, cardId, cardTitle, unit⟩]))

/-! ## dataHistory.ts: queries -/

/-- getCardHistory of dataHistory.ts.  A JS falsy timeRange (absent or 0)
returns the stored list unfiltered; otherwise points from the last
timeRange milliseconds are kept. -/
def getCardHistory (h : SensorHistory) (cardId : String) (timeRange : Option Int)
    (now : Int) : List SensorDataPoint :=
  let cardHistory := getHist h cardId
  match timeRange with
  | none => cardHistory
  | some tr =>
    if tr = 0 then cardHistory
    else cardHistory.filter (fun p => decide (now - tr ≤ p.timestamp))

/-- getAllHistory of dataHistory.ts, with the same falsy-window convention. -/
def getAllHistory (h : SensorHistory) (timeRange : Option Int) (now : Int) : SensorHistory :=
  match timeRange with
  | none => h
  | some tr =>
    if tr = 0 then h
    else h.map (fun e => (e.1, e.2.filter (fun p => decide (now - tr ≤ p.timestamp))))

/-- The record returned by getStatistics. -/
structure Stats where
  min : ℚ
  max : ℚ
  average : ℚ
  latest : ℚ
  count : Nat
deriving DecidableEq, Repr

/-- getStatistics of dataHistory.ts. -/
def getStatistics (h : SensorHistory) (cardId : String) (timeRange now : Int) : Stats :=
  let data := getCardHistory h cardId (some timeRange) now
  if data.isEmpty then ⟨0, 0, 0, 0, 0⟩
  else
    let values := data.map (fun p => p.value)
    ⟨(values.min?).getD 0, (values.max?).getD 0,
      values.sum / (values.length : ℚ), (values.getLast?).getD 0, data.length⟩

/-- The four running counters of getStatusDistribution. -/
structure StatusDist where
  low : Nat
  normal : Nat
  warning : Nat
  danger : Nat
deriving DecidableEq, Repr

/-- getStatusDistribution of dataHistory.ts: count windowed points of every
series by status; all four categories are always present in the result. -/
def getStatusDistribution (h : SensorHistory) (timeRange now : Int) : StatusDist :=
  let pts := ((getAllHistory h (some timeRange) now).map Prod.snd).flatten
  ⟨(pts.filter (fun p => p.status = SensorStatus.low)).length,
    (pts.filter (fun p => p.status = SensorStatus.normal)).length,
    (pts.filter (fun p => p.status = SensorStatus.warning)).length,
    (pts.filter (fun p => p.status = SensorStatus.danger)).length⟩

/-- One entry of the pie-chart data built by getStatusDistributionData in
ChartView.tsx. -/
structure DistItem where
  name : String
  value : Nat
  color : String
deriving DecidableEq, Repr

/-- getStatusDistributionData of ChartView.tsx: label the four counters and
drop the entries whose count is zero. -/
def getStatusDistributionData (h : SensorHistory) (timeRange now : Int) : List DistItem :=
  let d := getStatusDistribution h timeRange now
  ([⟨"낮음", d.low, "#2196f3"⟩, ⟨"정상", d.normal, "#4caf50"⟩,
    ⟨"주의", d.warning, "#ff9800"⟩, ⟨"위험", d.danger, "#f44336"⟩] : List DistItem).filter
    (fun item => decide (0 < item.value))

/-! ## dataHistory.ts: operation sequences -/

/-- The arguments of one addDataPoint call, with the Date.now() value it
observes. -/
structure AppendOp where
  cardId : String
  value : ℚ
  status : SensorStatus
  cardTitle : String
  unit : String
  now : Int

/-- Run one append against a history. -/
def applyAppend (maxPoints : Nat) (h : SensorHistory) (op : AppendOp) : SensorHistory :=
  addDataPoint maxPoints h op.cardId op.value op.status op.cardTitle op.unit op.now

/-- Run a sequence of appends from the empty store. -/
def runAppends (maxPoints : Nat) (ops : List AppendOp) : SensorHistory :=
  ops.foldl (applyAppend maxPoints) []

/-- Whether addDataPoint accepts the call (falsy cardId and plausibility
checks). -/
def acceptedOp (op : AppendOp) : Bool :=
  decide (op.cardId ≠ "") && isValidSensorValue op.cardId op.value op.cardTitle

/-- The stored point an accepted append produces. -/
def opPoint (op : AppendOp) : SensorDataPoint :=
  ⟨op.now, op.value, op.status, op.cardId, op.cardTitle, op.unit⟩

/-- The accepted appends targeting series c, in arrival order. -/
def acceptedPoints (ops : List AppendOp) (c : String) : List SensorDataPoint :=
  (ops.filter (fun op => decide (op.cardId = c) && acceptedOp op)).map opPoint

/-- A store operation: append, per-series clear, or whole-store clear. -/
inductive HistOp
  | append (op : AppendOp)
  | clearCard (cardId : String)
  | clearAll

/-- Apply one store operation (clearCardHistory deletes the key,
clearHistory resets the store). -/
def applyOp (maxPoints : Nat) (h : SensorHistory) : HistOp → SensorHistory
  | .append op => applyAppend maxPoints h op
  | .clearCard c => h.filter (fun e => decide (e.1 ≠ c))
  | .clearAll => []

/-- Run a sequence of store operations from the empty store. -/
def runOps (maxPoints : Nat) (ops : List HistOp) : SensorHistory :=
  ops.foldl (applyOp maxPoints) []

/-- The Date.now() values observed by the append operations, in order. -/
def opTimes : List HistOp → List Int
  | [] => []
  | .append op :: rest => op.now :: opTimes rest
  | .clearCard _ :: rest => opTimes rest
  | .clearAll :: rest => opTimes rest

/-! ## Claims about the validator -/

/-- C5: the plausibility filter accepts a temperature-category value iff it
lies in the closed interval from -50 to 80 and is not exactly 0, and accepts
a humidity-category value iff it is positive and at most 100; in particular
value 0 with a temperature title is rejected, 23.5 accepted, and value 0
with a humidity title rejected, 65 accepted. -/
theorem c5_validator_ranges (cardId cardTitle : String) (v : ℚ) :
    (tempMatch cardId cardTitle = true →
      (isValidSensorValue cardId v cardTitle = true ↔ (-50 ≤ v ∧ v ≤ 80 ∧ v ≠ 0))) ∧
    (tempMatch cardId cardTitle = false → humidMatch cardId cardTitle = true →
      (isValidSensorValue cardId v cardTitle = true ↔ (0 < v ∧ v ≤ 100))) ∧
    isValidSensorValue "sensor1" 0 "temperature" = false ∧
    isValidSensorValue "sensor1" 23.5 "temperature" = true ∧
    isValidSensorValue "sensor1" 0 "humidity" = false ∧
    isValidSensorValue "sensor1" 65 "humidity" = true := by
  refine ⟨?_, ?_, ?_, ?_, ?_, ?_⟩
  · intro ht
    simp [isValidSensorValue, ht, and_assoc]
  · intro ht hh
    simp [isValidSensorValue, ht, hh]
  · have ht : tempMatch "sensor1" "temperature" = true := by decide
    simp [isValidSensorValue, ht]
  · have ht : tempMatch "sensor1" "temperature" = true := by decide
    simp [isValidSensorValue, ht]
    norm_num
  · have ht : tempMatch "sensor1" "humidity" = false := by decide
    have hh : humidMatch "sensor1" "humidity" = true := by decide
    simp [isValidSensorValue, ht, hh]
  · have ht : tempMatch "sensor1" "humidity" = false := by decide
    have hh : humidMatch "sensor1" "humidity" = true := by decide
    simp [isValidSensorValue, ht, hh]
    norm_num

/-- C5 witness: the general temperature equivalence applied at a concrete
title, identifier and value. -/
theorem c5_validator_ranges_witness :
    isValidSensorValue "card7" 10 "온도 sensor" = true :=
  ((c5_validator_ranges "card7" "온도 sensor" 10).1 (by decide)).mpr
    (by norm_num)

/-- C4 counterexample: the identifier keyword match of the validator is
case-sensitive.  With title x (no keyword) and value 100, the identifier
written in lower case selects the temperature category and the value is
rejected, while the same identifier in upper case falls through to the
generic category and the value is accepted. -/
theorem c4_counterexample :
    isValidSensorValue "temperature" 100 "x" = false ∧
    isValidSensorValue "TEMPERATURE" 100 "x" = true := by
  constructor
  · have ht : tempMatch "temperature" "x" = true := by decide
    simp [isValidSensorValue, ht]
    norm_num
  · have ht : tempMatch "TEMPERATURE" "x" = false := by decide
    have hh : humidMatch "TEMPERATURE" "x" = false := by decide
    have hs : soilMatch "x" = false := by decide
    have hl : lightMatch "x" = false := by decide
    have hc : co2Match "x" = false := by decide
    simp [isValidSensorValue, ht, hh, hs, hl, hc]
    norm_num

/-- C4 amended: keyword matching is case-insensitive in the declared title
only; recasing the title never changes the accept decision (the identifier
is matched case-sensitively, as the counterexample shows). -/
theorem c4_title_case_insensitive (cardId t1 t2 : String) (v : ℚ)
    (h : jsToLower t1 = jsToLower t2) :
    isValidSensorValue cardId v t1 = isValidSensorValue cardId v t2 := by
  simp only [isValidSensorValue, tempMatch, humidMatch, soilMatch, lightMatch,
    co2Match, h]

/-- C4 witness: the amended theorem applied to two casings of a title. -/
theorem c4_title_case_insensitive_witness :
    isValidSensorValue "x" 5 "TeMp probe" = isValidSensorValue "x" 5 "temp PROBE" :=
  c4_title_case_insensitive "x" "TeMp probe" "temp PROBE" 5 (by decide)

/-! ## Claims about statistics queries -/

/-- C8: getStatistics over a window containing no points of the series
returns the all-zero record (and, being a total function, raises no
error). -/
theorem c8_empty_statistics (h : SensorHistory) (cardId : String) (timeRange now : Int)
    (hempty : getCardHistory h cardId (some timeRange) now = []) :
    getStatistics h cardId timeRange now = ⟨0, 0, 0, 0, 0⟩ := by
  simp [getStatistics, hempty]

/-- C8 witness: the empty-window statistics theorem at a concrete store
whose only point lies outside the window. -/
theorem c8_empty_statistics_witness :
    getStatistics [("a", [⟨0, 1, SensorStatus.normal, "a", "t", "u"⟩])] "a" 100 1000 =
      ⟨0, 0, 0, 0, 0⟩ :=
  c8_empty_statistics _ "a" 100 1000 (by decide)

/-- C9: every entry of the status-distribution data handed to the pie chart
has a strictly positive count; zero-count categories are dropped. -/
theorem c9_distribution_drops_zero (h : SensorHistory) (timeRange now : Int)
    (item : DistItem) (hmem : item ∈ getStatusDistributionData h timeRange now) :
    0 < item.value := by
  have := List.of_mem_filter hmem
  exact of_decide_eq_true this

/-- C9 witness: the theorem applied to a store with one normal point, whose
distribution data contains the normal entry. -/
theorem c9_distribution_drops_zero_witness :
    0 < (DistItem.mk "정상" 1 "#4caf50").value :=
  c9_distribution_drops_zero
    [("a", [⟨0, 1, SensorStatus.normal, "a", "t", "u"⟩])] 100 50
    ⟨"정상", 1, "#4caf50"⟩ (by decide)

/-! ## Retention lemmas -/

/-- getHist after setHist at the written key. -/
theorem getHist_setHist_self (h : SensorHistory) (c : String)
    (pts : List SensorDataPoint) : getHist (setHist h c pts) c = pts := by
  induction h with
  | nil => simp [getHist, setHist]
  | cons e rest ih =>
    obtain ⟨c', pts'⟩ := e
    by_cases hc : c' = c
    · simp [getHist, setHist, hc]
    · simp [getHist, setHist, hc, ih]

/-- getHist after setHist at a different key. -/
theorem getHist_setHist_ne (h : SensorHistory) (c c' : String)
    (pts : List SensorDataPoint) (hne : c' ≠ c) :
    getHist (setHist h c pts) c' = getHist h c' := by
  have hne' : c ≠ c' := Ne.symm hne
  induction h with
  | nil => simp [getHist, setHist, hne']
  | cons e rest ih =>
    obtain ⟨c'', pts''⟩ := e
    by_cases hc : c'' = c
    · subst hc
      simp [getHist, setHist, hne']
    · simp [getHist, setHist, hc, ih]

/-- A rejected append leaves the store untouched. -/
theorem applyAppend_rejected (m : Nat) (h : SensorHistory) (op : AppendOp)
    (hrej : acceptedOp op = false) : applyAppend m h op = h := by
  unfold applyAppend addDataPoint
  by_cases hc : op.cardId = ""
  · simp [hc]
  · have : isValidSensorValue op.cardId op.value op.cardTitle = false := by
      simpa [acceptedOp, hc] using hrej
    simp [hc, this]

/-- An append never changes the history of another series. -/
theorem getHist_applyAppend_ne (m : Nat) (h : SensorHistory) (op : AppendOp)
    (c : String) (hne : c ≠ op.cardId) :
    getHist (applyAppend m h op) c = getHist h c := by
  unfold applyAppend addDataPoint
  by_cases hc : op.cardId = ""
  · simp [hc]
  · by_cases hv : isValidSensorValue op.cardId op.value op.cardTitle
    · simp [hc, hv, getHist_setHist_ne _ _ _ _ hne]
    · simp [hc, hv]

/-- An accepted append pushes the new point and clamps the list. -/
theorem getHist_applyAppend_self (m : Nat) (h : SensorHistory) (op : AppendOp)
    (hacc : acceptedOp op = true) :
    getHist (applyAppend m h op) op.cardId =
      clampPts m (getHist h op.cardId ++ [opPoint op]) := by
  have hc : ¬ op.cardId = "" := by
    intro hc
    simp [acceptedOp, hc] at hacc
  have hv : isValidSensorValue op.cardId op.value op.cardTitle = true := by
    simpa [acceptedOp, hc] using hacc
  unfold applyAppend addDataPoint
  simp [hc, hv, getHist_setHist_self, opPoint]

/-- The length of a right slice never exceeds the bound. -/
theorem length_lastN (n : Nat) (l : List α) : (lastN n l).length = l.length - (l.length - n) := by
  simp [lastN]

/-- Slicing a list no longer than the bound is the identity. -/
theorem lastN_of_le {n : Nat} {l : List α} (h : l.length ≤ n) : lastN n l = l := by
  have : l.length - n = 0 := by omega
  simp [lastN, this]

/-- Right slice of a snoc, for a positive bound. -/
theorem lastN_snoc {m : Nat} (hm : 0 < m) (l : List α) (x : α) :
    lastN m (l ++ [x]) = lastN (m - 1) l ++ [x] := by
  unfold lastN
  have hlen : (l ++ [x]).length = l.length + 1 := by simp
  rw [hlen]
  have hle : l.length + 1 - m ≤ l.length := by omega
  rw [List.drop_append_of_le_length hle]
  congr 2
  omega

/-- Nested right slices collapse to the smaller bound. -/
theorem lastN_lastN {a b : Nat} (hab : a ≤ b) (l : List α) :
    lastN a (lastN b l) = lastN a l := by
  unfold lastN
  rw [List.drop_drop, List.length_drop]
  congr 1
  omega

/-- Pushing onto an already clamped list and clamping again equals clamping
the full list: the single eviction step of addDataPoint maintains the
sliding window of the most recent points. -/
theorem clampPts_snoc {m : Nat} (hm : 0 < m) (l : List SensorDataPoint)
    (x : SensorDataPoint) :
    clampPts m (lastN m l ++ [x]) = lastN m (l ++ [x]) := by
  unfold clampPts
  by_cases hlt : m < (lastN m l ++ [x]).length
  · simp only [if_pos hlt]
    rw [lastN_snoc hm, lastN_lastN (by omega), ← lastN_snoc hm]
  · simp only [if_neg hlt]
    have hlen : (lastN m l).length = l.length - (l.length - m) := length_lastN m l
    simp only [List.length_append, List.length_singleton] at hlt
    have hsmall : l.length < m := by omega
    rw [lastN_of_le (l := l) (by omega)]
    rw [lastN_of_le (by simp; omega)]

/-- The clamped list is a sublist of the original. -/
theorem clampPts_sublist (m : Nat) (l : List SensorDataPoint) :
    (clampPts m l).Sublist l := by
  unfold clampPts
  by_cases hlt : m < l.length
  · simp only [if_pos hlt, lastN]
    exact List.drop_sublist _ _
  · simp [hlt]

/-- acceptedPoints of a snoc. -/
theorem acceptedPoints_snoc (ops : List AppendOp) (op : AppendOp) (c : String) :
    acceptedPoints (ops ++ [op]) c =
      acceptedPoints ops c ++
        (if op.cardId = c ∧ acceptedOp op = true then [opPoint op] else []) := by
  unfold acceptedPoints
  rw [List.filter_append, List.map_append]
  congr 1
  by_cases hc : op.cardId = c
  · by_cases ha : acceptedOp op = true
    · simp [hc, ha]
    · simp [hc, ha]
  · simp [hc]

/-- C1: after any sequence of append calls from the empty store, the stored
history of every series has at most maxPoints points, and equals exactly the
most recent maxPoints accepted appends for that series in arrival order
(front eviction). -/
theorem c1_bounded_retention (m : Nat) (hm : 0 < m) (ops : List AppendOp) (c : String) :
    (getHist (runAppends m ops) c).length ≤ m ∧
    getHist (runAppends m ops) c = lastN m (acceptedPoints ops c) := by
  have main : getHist (runAppends m ops) c = lastN m (acceptedPoints ops c) := by
    induction ops using List.reverseRecOn with
    | nil => simp [runAppends, acceptedPoints, getHist, lastN]
    | append_singleton l op ih =>
      have hrun : runAppends m (l ++ [op]) = applyAppend m (runAppends m l) op := by
        simp [runAppends]
      rw [hrun, acceptedPoints_snoc]
      by_cases ha : acceptedOp op = true
      · by_cases hc : op.cardId = c
        · subst hc
          rw [getHist_applyAppend_self m _ op ha, ih, if_pos ⟨rfl, ha⟩]
          exact clampPts_snoc hm _ _
        · rw [getHist_applyAppend_ne m _ op c (fun h => hc h.symm), ih,
            if_neg (by simp [hc])]
          simp
      · rw [applyAppend_rejected m _ op (by simpa using ha), ih,
          if_neg (by simp [ha])]
        simp
  refine ⟨?_, main⟩
  rw [main, length_lastN]
  omega

/-- C1 witness: three accepted appends against a bound of two retain the
last two points. -/
theorem c1_bounded_retention_witness :
    (0 : Nat) < 2 ∧
    (getHist
        (runAppends 2
          [⟨"a", 10, SensorStatus.normal, "temp", "C", 1⟩,
            ⟨"a", 11, SensorStatus.normal, "temp", "C", 2⟩,
            ⟨"a", 12, SensorStatus.normal, "temp", "C", 3⟩]) "a").length ≤ 2 :=
  ⟨by norm_num,
    (c1_bounded_retention 2 (by norm_num)
      [⟨"a", 10, SensorStatus.normal, "temp", "C", 1⟩,
        ⟨"a", 11, SensorStatus.normal, "temp", "C", 2⟩,
        ⟨"a", 12, SensorStatus.normal, "temp", "C", 3⟩] "a").1⟩

/-! ## Order of stored timestamps -/

/-- getHist after a per-series clear. -/
theorem getHist_clearCard (h : SensorHistory) (c0 c : String) :
    getHist (h.filter (fun e => decide (e.1 ≠ c0))) c =
      if c = c0 then [] else getHist h c := by
  induction h with
  | nil => simp [getHist]
  | cons e rest ih =>
    obtain ⟨c', pts'⟩ := e
    rw [List.filter_cons]
    by_cases hc : c' = c0
    · have hcond : (decide ((c', pts').1 ≠ c0)) = false := by simp [hc]
      rw [hcond]
      simp only [Bool.false_eq_true, if_false]
      rw [ih]
      by_cases hcc : c = c0
      · simp [hcc]
      · have hne : c' ≠ c := fun h => hcc (h.symm.trans hc)
        simp [hcc, getHist, hne]
    · have hcond : (decide ((c', pts').1 ≠ c0)) = true := by simp [hc]
      rw [hcond]
      simp only [if_true]
      by_cases hcc : c' = c
      · subst hcc
        have hne : ¬ c' = c0 := hc
        simp [getHist, hne]
      · have ihn := ih
        simp only [ne_eq, decide_not] at ihn
        simp [getHist, hcc, ihn]

/-- Invariant carried through a run of store operations: if every stored
series is sorted by timestamp and every stored timestamp is below every
pending append time, and the pending append times are themselves
non-decreasing, then after the run every stored series is still sorted. -/
theorem runOps_sorted_aux (m : Nat) (ops : List HistOp) :
    ∀ st : SensorHistory,
      (opTimes ops).Pairwise (fun a b => a ≤ b) →
      (∀ c, ((getHist st c).map (fun p => p.timestamp)).Pairwise (fun a b => a ≤ b)) →
      (∀ c p, p ∈ getHist st c → ∀ t ∈ opTimes ops, p.timestamp ≤ t) →
      ∀ c, ((getHist (ops.foldl (applyOp m) st) c).map (fun p => p.timestamp)).Pairwise
        (fun a b => a ≤ b) := by
  induction ops with
  | nil => intro st _ hsorted _ c; exact hsorted c
  | cons op rest ih =>
    intro st hmono hsorted hbound c
    rw [List.foldl_cons]
    cases op with
    | clearAll =>
      refine ih [] ?_ ?_ ?_ c
      · simpa [opTimes] using hmono
      · intro c'; simp [getHist]
      · intro c' p hp; simp [getHist] at hp
    | clearCard c0 =>
      refine ih _ ?_ ?_ ?_ c
      · simpa [opTimes] using hmono
      · intro c'
        rw [applyOp, getHist_clearCard]
        by_cases hc : c' = c0
        · simp [hc]
        · simpa [hc] using hsorted c'
      · intro c' p hp t ht
        rw [applyOp, getHist_clearCard] at hp
        by_cases hc : c' = c0
        · simp [hc] at hp
        · rw [if_neg hc] at hp
          exact hbound c' p hp t (by simpa [opTimes] using ht)
    | append a =>
      have hpair : (∀ t ∈ opTimes rest, a.now ≤ t) ∧
          (opTimes rest).Pairwise (fun a b => a ≤ b) := by
        have h0 := hmono
        rw [show opTimes (HistOp.append a :: rest) = a.now :: opTimes rest from rfl] at h0
        exact List.pairwise_cons.mp h0
      have hmemops : ∀ t, t ∈ opTimes rest → t ∈ opTimes (HistOp.append a :: rest) :=
        fun t ht => List.mem_cons_of_mem _ ht
      by_cases ha : acceptedOp a = true
      · refine ih _ hpair.2 ?_ ?_ c
        · intro c'
          by_cases hc : c' = a.cardId
          · subst hc
            rw [show applyOp m st (HistOp.append a) = applyAppend m st a from rfl,
              getHist_applyAppend_self m st a ha]
            have hsub : ((clampPts m (getHist st a.cardId ++ [opPoint a])).map
                (fun p => p.timestamp)).Sublist
                ((getHist st a.cardId ++ [opPoint a]).map (fun p => p.timestamp)) :=
              (clampPts_sublist _ _).map _
            refine List.Pairwise.sublist hsub ?_
            rw [List.map_append, List.pairwise_append]
            refine ⟨hsorted a.cardId, by simp, ?_⟩
            intro x hx y hy
            simp only [List.mem_map] at hx
            obtain ⟨p, hp, rfl⟩ := hx
            simp only [List.map_cons, List.map_nil, List.mem_singleton, opPoint] at hy
            subst hy
            exact hbound a.cardId p hp a.now (by simp [opTimes])
          · rw [show applyOp m st (HistOp.append a) = applyAppend m st a from rfl,
              getHist_applyAppend_ne m st a c' hc]
            exact hsorted c'
        · intro c' p hp t ht
          by_cases hc : c' = a.cardId
          · subst hc
            rw [show applyOp m st (HistOp.append a) = applyAppend m st a from rfl,
              getHist_applyAppend_self m st a ha] at hp
            have hp' := (clampPts_sublist m _).subset hp
            rcases List.mem_append.mp hp' with hin | hnew
            · exact hbound a.cardId p hin t (hmemops t ht)
            · simp only [List.mem_singleton] at hnew
              subst hnew
              exact hpair.1 t ht
          · rw [show applyOp m st (HistOp.append a) = applyAppend m st a from rfl,
              getHist_applyAppend_ne m st a c' hc] at hp
            exact hbound c' p hp t (hmemops t ht)
      · refine ih _ hpair.2 ?_ ?_ c
        · intro c'
          rw [show applyOp m st (HistOp.append a) = applyAppend m st a from rfl,
            applyAppend_rejected m st a (by simpa using ha)]
          exact hsorted c'
        · intro c' p hp t ht
          rw [show applyOp m st (HistOp.append a) = applyAppend m st a from rfl,
            applyAppend_rejected m st a (by simpa using ha)] at hp
          exact hbound c' p hp t (hmemops t ht)

/-- C10: under a non-decreasing clock, after any sequence of appends,
per-series clears and whole-store clears from the empty store, every stored
series is sorted by non-decreasing timestamp: accepted appends stamp the
clock value and push at the back, eviction drops only from the front, so no
stored series ever holds out-of-order points. -/
theorem c10_history_sorted (m : Nat) (ops : List HistOp)
    (hmono : (opTimes ops).Pairwise (fun a b => a ≤ b)) (c : String) :
    ((getHist (runOps m ops) c).map (fun p => p.timestamp)).Pairwise
      (fun a b => a ≤ b) := by
  refine runOps_sorted_aux m ops [] hmono ?_ ?_ c
  · intro c'; simp [getHist]
  · intro c' p hp; simp [getHist] at hp

/-- C10 witness: a concrete run with two appends around a per-series clear
and non-decreasing clock values. -/
theorem c10_history_sorted_witness :
    ((getHist
        (runOps 1000
          [HistOp.append ⟨"a", 10, SensorStatus.normal, "temp", "C", 1⟩,
            HistOp.clearCard "b",
            HistOp.append ⟨"a", 11, SensorStatus.normal, "temp", "C", 2⟩]) "a").map
      (fun p => p.timestamp)).Pairwise (fun a b => a ≤ b) :=
  c10_history_sorted 1000
    [HistOp.append ⟨"a", 10, SensorStatus.normal, "temp", "C", 1⟩,
      HistOp.clearCard "b",
      HistOp.append ⟨"a", 11, SensorStatus.normal, "temp", "C", 2⟩]
    (by simp [opTimes]) "a"

/-! ## mqttTreeParser.ts: topic tree -/

/-- MqttTreeNode of MqttTree.ts: the children Map is modelled as an
association list with unique keys in insertion order; lastUpdated holds the
message timestamp. -/
inductive MqttTreeNode where
  | mk (name path : String) (children : List (String × MqttTreeNode))
      (value : Option String) (lastUpdated : Option Int) (isEndpoint : Bool)

/-- The name field. -/
def MqttTreeNode.name : MqttTreeNode → String
  | .mk n _ _ _ _ _ => n

/-- The path field. -/
def MqttTreeNode.path : MqttTreeNode → String
  | .mk _ p _ _ _ _ => p

/-- The children field. -/
def MqttTreeNode.children : MqttTreeNode → List (String × MqttTreeNode)
  | .mk _ _ c _ _ _ => c

/-- The value field. -/
def MqttTreeNode.value : MqttTreeNode → Option String
  | .mk _ _ _ v _ _ => v

/-- The lastUpdated field. -/
def MqttTreeNode.lastUpdated : MqttTreeNode → Option Int
  | .mk _ _ _ _ l _ => l

/-- The isEndpoint field. -/
def MqttTreeNode.isEndpoint : MqttTreeNode → Bool
  | .mk _ _ _ _ _ e => e

/-- JS Map.get on the children map. -/
def getChild : List (String × MqttTreeNode) → String → Option MqttTreeNode
  | [], _ => none
  | (k', v') :: rest, k => if k' = k then some v' else getChild rest k

/-- JS Map.set on the children map: overwrite in place, or append a new key. -/
def setChild : List (String × MqttTreeNode) → String → MqttTreeNode →
    List (String × MqttTreeNode)
  | [], k, v => [(k, v)]
  | (k', v') :: rest, k, v =>
    if k' = k then (k, v) :: rest else (k', v') :: setChild rest k v

/-- The child addToTree descends into: the existing one, or a fresh
intermediate node whose path joins the consumed segments with the current
one (parts.slice(0, index + 1).join in the source). -/
def childFor (cs : List (String × MqttTreeNode)) (part : String)
    (acc : List String) : MqttTreeNode :=
  match getChild cs part with
  | some c => c
  | none => .mk part (String.intercalate "/" (acc ++ [part])) [] none none false

/-- addToTree of mqttTreeParser.ts.  acc holds the segments already
consumed. -/
def addToTree (payload : String) (ts : Int) :
    MqttTreeNode → List String → List String → MqttTreeNode
  | .mk nm p cs _ _ _, _, [] => .mk nm p cs (some payload) (some ts) true
  | .mk nm p cs v lu e, acc, part :: rest =>
    .mk nm p
      (setChild cs part
        (addToTree payload ts (childFor cs part acc) (acc ++ [part]) rest)) v lu e

/-- JS topic.split with a single-character separator. -/
def splitChar (sep : Char) : List Char → List (List Char)
  | [] => [[]]
  | c :: cs =>
    match splitChar sep cs with
    | [] => [[]]
    | seg :: rest => if c = sep then [] :: seg :: rest else (c :: seg) :: rest

/-- The segment list of addMessage: split on slash and drop empty parts. -/
def splitTopic (topic : String) : List String :=
  ((splitChar '/' topic.data).filter (fun s => ¬ s.isEmpty)).map (fun cs => String.mk cs)

/-- The root node built by the MqttTreeParser constructor and clear. -/
def emptyRoot : MqttTreeNode := .mk "root" "" [] none none false

/-- addMessage of mqttTreeParser.ts. -/
def addMessage (t : MqttTreeNode) (topic payload : String) (ts : Int) : MqttTreeNode :=
  addToTree payload ts t [] (splitTopic topic)

/-- Walk a segment path down the tree. -/
def findPath : MqttTreeNode → List String → Option MqttTreeNode
  | n, [] => some n
  | n, part :: rest =>
    match getChild n.children part with
    | none => none
    | some c => findPath c rest

/-- The local data of a node: everything except the recursive subtrees. -/
structure NodeView where
  name : String
  path : String
  childKeys : List String
  value : Option String
  lastUpdated : Option Int
  isEndpoint : Bool
deriving DecidableEq, Repr

/-- Observe a node locally. -/
def view (n : MqttTreeNode) : NodeView :=
  ⟨n.name, n.path, n.children.map Prod.fst, n.value, n.lastUpdated, n.isEndpoint⟩

/-- Observe the node at a path, if present. -/
def viewAt (t : MqttTreeNode) (q : List String) : Option NodeView :=
  (findPath t q).map view

/-! ## Children map lemmas -/

/-- Reading back the written key. -/
theorem getChild_setChild_self (cs : List (String × MqttTreeNode)) (k : String)
    (v : MqttTreeNode) : getChild (setChild cs k v) k = some v := by
  induction cs with
  | nil => simp [getChild, setChild]
  | cons e rest ih =>
    obtain ⟨k', v'⟩ := e
    by_cases hk : k' = k
    · simp [getChild, setChild, hk]
    · simp [getChild, setChild, hk, ih]

/-- Reading another key after a write. -/
theorem getChild_setChild_ne (cs : List (String × MqttTreeNode)) (k s : String)
    (v : MqttTreeNode) (hne : s ≠ k) : getChild (setChild cs k v) s = getChild cs s := by
  have hne' : k ≠ s := Ne.symm hne
  induction cs with
  | nil => simp [getChild, setChild, hne']
  | cons e rest ih =>
    obtain ⟨k', v'⟩ := e
    by_cases hk : k' = k
    · subst hk
      simp [getChild, setChild, hne']
    · simp [getChild, setChild, hk, ih]

/-- Two writes to the same key collapse to the second. -/
theorem setChild_setChild (cs : List (String × MqttTreeNode)) (k : String)
    (a b : MqttTreeNode) : setChild (setChild cs k a) k b = setChild cs k b := by
  induction cs with
  | nil => simp [setChild]
  | cons e rest ih =>
    obtain ⟨k', v'⟩ := e
    by_cases hk : k' = k
    · simp [setChild, hk]
    · simp [setChild, hk, ih]

/-- The key sequence after a write does not depend on the written value. -/
theorem keys_setChild_indep (cs : List (String × MqttTreeNode)) (k : String)
    (a b : MqttTreeNode) :
    (setChild cs k a).map Prod.fst = (setChild cs k b).map Prod.fst := by
  induction cs with
  | nil => simp [setChild]
  | cons e rest ih =>
    obtain ⟨k', v'⟩ := e
    by_cases hk : k' = k
    · simp [setChild, hk]
    · simp [setChild, hk, ih]

/-! ## Re-publish lemmas -/

/-- Publishing the same segment path twice collapses to the second publish. -/
theorem addToTree_addToTree (p1 p2 : String) (t1 t2 : Int) :
    ∀ (parts : List String) (n : MqttTreeNode) (acc : List String),
      addToTree p2 t2 (addToTree p1 t1 n acc parts) acc parts =
        addToTree p2 t2 n acc parts := by
  intro parts
  induction parts with
  | nil =>
    intro n acc
    cases n with
    | mk nm p cs v lu e => simp [addToTree]
  | cons part rest ih =>
    intro n acc
    cases n with
    | mk nm p cs v lu e =>
      simp only [addToTree, childFor, getChild_setChild_self, setChild_setChild, ih]

/-- Away from the published path, the resulting local node data does not
depend on the payload or the timestamp. -/
theorem viewAt_addToTree_indep (p1 p2 : String) (t1 t2 : Int) :
    ∀ (parts q : List String) (n : MqttTreeNode) (acc : List String), q ≠ parts →
      viewAt (addToTree p2 t2 n acc parts) q = viewAt (addToTree p1 t1 n acc parts) q := by
  intro parts
  induction parts with
  | nil =>
    intro q n acc hq
    cases n with
    | mk nm p cs v lu e =>
      cases q with
      | nil => exact absurd rfl hq
      | cons s q' => rfl
  | cons part rest ih =>
    intro q n acc hq
    cases n with
    | mk nm p cs v lu e =>
      cases q with
      | nil =>
        have hk := keys_setChild_indep cs part
          (addToTree p2 t2 (childFor cs part acc) (acc ++ [part]) rest)
          (addToTree p1 t1 (childFor cs part acc) (acc ++ [part]) rest)
        simp only [addToTree, viewAt, findPath]
        simp [view, MqttTreeNode.name, MqttTreeNode.path, MqttTreeNode.children,
          MqttTreeNode.value, MqttTreeNode.lastUpdated, MqttTreeNode.isEndpoint, hk]
      | cons s q' =>
        by_cases hs : s = part
        · subst hs
          have hq' : q' ≠ rest := fun h => hq (by rw [h])
          simp only [addToTree, viewAt, findPath, MqttTreeNode.children,
            getChild_setChild_self]
          exact ih q' _ _ hq'
        · simp only [addToTree, viewAt, findPath, MqttTreeNode.children,
            getChild_setChild_ne _ _ _ _ hs]

/-- The node at the published path carries the payload, the timestamp and
the endpoint mark. -/
theorem findPath_addToTree_terminal (p0 : String) (ts : Int) :
    ∀ (parts : List String) (n : MqttTreeNode) (acc : List String),
      ∃ m, findPath (addToTree p0 ts n acc parts) parts = some m ∧
        m.value = some p0 ∧ m.lastUpdated = some ts ∧ m.isEndpoint = true := by
  intro parts
  induction parts with
  | nil =>
    intro n acc
    cases n with
    | mk nm p cs v lu e =>
      exact ⟨_, rfl, rfl, rfl, rfl⟩
  | cons part rest ih =>
    intro n acc
    cases n with
    | mk nm p cs v lu e =>
      simp only [addToTree, findPath, MqttTreeNode.children, getChild_setChild_self]
      exact ih _ _

/-- Two publishes of the same segment path against the same base tree agree
at the terminal node on every field other than value and lastUpdated. -/
theorem findPath_addToTree_terminal_agree (p1 p2 : String) (t1 t2 : Int) :
    ∀ (parts : List String) (n : MqttTreeNode) (acc : List String)
      (m1 m2 : MqttTreeNode),
      findPath (addToTree p1 t1 n acc parts) parts = some m1 →
      findPath (addToTree p2 t2 n acc parts) parts = some m2 →
      m2.name = m1.name ∧ m2.path = m1.path ∧
        m2.children.map Prod.fst = m1.children.map Prod.fst ∧
        m2.isEndpoint = m1.isEndpoint := by
  intro parts
  induction parts with
  | nil =>
    intro n acc m1 m2 h1 h2
    cases n with
    | mk nm p cs v lu e =>
      simp only [addToTree, findPath, Option.some_inj] at h1 h2
      subst h1
      subst h2
      exact ⟨rfl, rfl, rfl, rfl⟩
  | cons part rest ih =>
    intro n acc m1 m2 h1 h2
    cases n with
    | mk nm p cs v lu e =>
      simp only [addToTree, findPath, MqttTreeNode.children,
        getChild_setChild_self] at h1 h2
      exact ih _ _ _ _ h1 h2

/-- Intermediate nodes created by a publish along a fresh path prefix are
plain prefixes: not endpoints and without a value. -/
theorem findPath_addToTree_fresh (p0 : String) (ts : Int) :
    ∀ (q parts : List String) (n : MqttTreeNode) (acc : List String),
      q <+: parts → q ≠ parts → findPath n q = none →
      ∃ m, findPath (addToTree p0 ts n acc parts) q = some m ∧
        m.isEndpoint = false ∧ m.value = none := by
  intro q
  induction q with
  | nil =>
    intro parts n acc _ _ hnone
    simp [findPath] at hnone
  | cons s q' ih =>
    intro parts n acc hpre hne hnone
    cases parts with
    | nil =>
      have : (s :: q' : List String) = [] := List.prefix_nil.mp hpre
      simp at this
    | cons part rest =>
      obtain ⟨hsp, hq'⟩ := List.cons_prefix_cons.mp hpre
      subst hsp
      have hne' : q' ≠ rest := fun h => hne (by rw [h])
      cases n with
      | mk nm p cs v lu e =>
        simp only [findPath, MqttTreeNode.children] at hnone
        cases hget : getChild cs s with
        | some c =>
          rw [hget] at hnone
          simp only [addToTree, childFor, hget, findPath, MqttTreeNode.children,
            getChild_setChild_self]
          exact ih rest c _ hq' hne' hnone
        | none =>
          simp only [addToTree, childFor, hget, findPath, MqttTreeNode.children,
            getChild_setChild_self]
          cases q' with
          | nil =>
            cases rest with
            | nil => exact absurd rfl hne'
            | cons r rest' =>
              refine ⟨_, rfl, ?_, ?_⟩ <;>
                simp [addToTree, MqttTreeNode.isEndpoint, MqttTreeNode.value]
          | cons x xs =>
            refine ih rest _ _ hq' hne' ?_
            simp [findPath, MqttTreeNode.children, getChild]

/-- C7: re-publishing a topic collapses to the second publish, so the tree
shape (nodes, paths, children maps) is unchanged and only value and
lastUpdated at the terminal node move to the second payload and timestamp;
intermediate nodes created while walking a fresh prefix are not endpoints
and carry no value. -/
theorem c7_idempotent_republish (t : MqttTreeNode) (topic p1 p2 : String)
    (t1 t2 : Int) :
    (addMessage (addMessage t topic p1 t1) topic p2 t2 = addMessage t topic p2 t2) ∧
    (∀ q, q ≠ splitTopic topic →
      viewAt (addMessage (addMessage t topic p1 t1) topic p2 t2) q =
        viewAt (addMessage t topic p1 t1) q) ∧
    (∃ n2 n1,
      findPath (addMessage (addMessage t topic p1 t1) topic p2 t2)
          (splitTopic topic) = some n2 ∧
      findPath (addMessage t topic p1 t1) (splitTopic topic) = some n1 ∧
      n2.value = some p2 ∧ n2.lastUpdated = some t2 ∧ n2.isEndpoint = true ∧
      n1.value = some p1 ∧ n2.name = n1.name ∧ n2.path = n1.path ∧
      n2.children.map Prod.fst = n1.children.map Prod.fst ∧
      n2.isEndpoint = n1.isEndpoint) ∧
    (∀ q, q <+: splitTopic topic → q ≠ splitTopic topic → findPath t q = none →
      ∃ m, findPath (addMessage t topic p1 t1) q = some m ∧
        m.isEndpoint = false ∧ m.value = none) := by
  have hcol : addMessage (addMessage t topic p1 t1) topic p2 t2 =
      addMessage t topic p2 t2 :=
    addToTree_addToTree p1 p2 t1 t2 (splitTopic topic) t []
  refine ⟨hcol, ?_, ?_, ?_⟩
  · intro q hq
    rw [hcol]
    exact viewAt_addToTree_indep p1 p2 t1 t2 (splitTopic topic) q t [] hq
  · obtain ⟨n2, h2, hv2, hlu2, he2⟩ :=
      findPath_addToTree_terminal p2 t2 (splitTopic topic) t []
    obtain ⟨n1, h1, hv1, _, _⟩ :=
      findPath_addToTree_terminal p1 t1 (splitTopic topic) t []
    obtain ⟨hname, hpath, hkeys, hend⟩ :=
      findPath_addToTree_terminal_agree p1 p2 t1 t2 (splitTopic topic) t [] n1 n2 h1 h2
    exact ⟨n2, n1, by rw [hcol]; exact h2, h1, hv2, hlu2, he2, hv1,
      hname, hpath, hkeys, hend⟩
  · intro q hpre hne hnone
    exact findPath_addToTree_fresh p1 t1 q (splitTopic topic) t [] hpre hne hnone

/-- C7 witness: publishing a/b twice on the empty tree leaves the local data
at the intermediate node a unchanged. -/
theorem c7_idempotent_republish_witness :
    viewAt (addMessage (addMessage emptyRoot "a/b" "x" 1) "a/b" "y" 2) ["a"] =
      viewAt (addMessage emptyRoot "a/b" "x" 1) ["a"] :=
  (c7_idempotent_republish emptyRoot "a/b" "x" "y" 1 2).2.1 ["a"] (by decide)

/-! ## ChartView.tsx: merged chart rows -/

/-- One merged chart row: the timestamp and the per-card values present at
that timestamp.  The display-only time and date strings of the source rows
are omitted. -/
structure ChartRow where
  timestamp : Int
  values : List (String × ℚ)
deriving DecidableEq, Repr

/-- The row order used by the sorts of ChartView: ascending timestamp. -/
def rowLE (a b : ChartRow) : Prop := a.timestamp ≤ b.timestamp

instance : DecidableRel rowLE := fun _ _ => Int.decLe _ _

instance : IsTotal ChartRow rowLE := ⟨fun _ _ => Int.le_total _ _⟩

instance : IsTrans ChartRow rowLE := ⟨fun _ _ _ => Int.le_trans⟩

/-- Sort rows by ascending timestamp.  The source sorts with a numeric
comparator over rows with pairwise distinct timestamps, so every correct
sort yields this list. -/
def sortByTs (rows : List ChartRow) : List ChartRow := List.insertionSort rowLE rows

/-- The values a card contributes over a list of rows, in row order. -/
def rowVals (rows : List ChartRow) (c : String) : List ℚ :=
  rows.filterMap (fun r => r.values.lookup c)

/-- Arithmetic mean (reduce of getMovingAverage and getIntervalAverage). -/
def avgVal (l : List ℚ) : ℚ := l.sum / (l.length : ℚ)

/-- The dedup of an integer list, keeping first appearances (the grouping
step of the source keys a JS object or Map; the order is irrelevant because
the rows are sorted by timestamp afterwards). -/
def dedupIntsAux (seen : List Int) : List Int → List Int
  | [] => []
  | x :: xs => if x ∈ seen then dedupIntsAux seen xs else x :: dedupIntsAux (x :: seen) xs

/-- Distinct elements of an integer list in first appearance order. -/
def dedupInts (l : List Int) : List Int := dedupIntsAux [] l

/-- The merged value of a card at one timestamp: the value of the last
point of the card at exactly that timestamp (later writes of the source
loop win). -/
def lastValueAt (pts : List SensorDataPoint) (ts : Int) : Option ℚ :=
  ((pts.filter (fun p => decide (p.timestamp = ts))).map (fun p => p.value)).getLast?

/-- The merged row getChartData builds for one timestamp. -/
def chartRowAt (cards : List String) (h : SensorHistory) (ts : Int) : ChartRow :=
  ⟨ts, cards.filterMap (fun c => (lastValueAt (getHist h c) ts).map (fun v => (c, v)))⟩

/-- Whether a row holds a value for every selected card. -/
def allPresent (cards : List String) (r : ChartRow) : Bool :=
  cards.all (fun c => (r.values.lookup c).isSome)

/-- getChartData of ChartView.tsx before averaging: one row per timestamp
appearing in a selected history, sorted ascending, keeping only the rows in
which every selected card has a value. -/
def chartRows (cards : List String) (h : SensorHistory) : List ChartRow :=
  (sortByTs (((dedupInts ((cards.map (fun c =>
      (getHist h c).map (fun p => p.timestamp))).flatten))).map
    (chartRowAt cards h))).filter (allPresent cards)

/-- The aggregate a card contributes to one output row: the aggregate of
its samples in the window, or none when it has no sample there. -/
def aggValueAt (agg : List ℚ → ℚ) (window : List ChartRow) (c : String) : Option ℚ :=
  if rowVals window c = [] then none else some (agg (rowVals window c))

/-- One output row of the three resamplers: emitted only when every
selected card contributes at least one sample to the window, carrying the
per-card aggregates; dropped (none) otherwise. -/
def aggRow (cards : List String) (agg : List ℚ → ℚ) (ts : Int)
    (window : List ChartRow) : Option ChartRow :=
  if cards.all (fun c => (aggValueAt agg window c).isSome) then
    some ⟨ts, cards.filterMap (fun c => (aggValueAt agg window c).map (fun v => (c, v)))⟩
  else none

/-- JS array map with the element index. -/
def mapWithIdx (f : Nat → α → β) : Nat → List α → List β
  | _, [] => []
  | i, a :: as => f i a :: mapWithIdx f (i + 1) as

/-- The sample window of getMovingAverage at row index i:
data.slice(max(0, i - floor(w / 2)), min(data.length, start + w)).
Truncated subtraction gives the left clamp and take gives the right one. -/
def movingWindow (data : List ChartRow) (w i : Nat) : List ChartRow :=
  (data.drop (i - w / 2)).take w

/-- getMovingAverage of ChartView.tsx. -/
def getMovingAverage (cards : List String) (data : List ChartRow) (w : Nat) :
    List ChartRow :=
  if w = 1 ∨ data.length < w then data
  else
    (mapWithIdx (fun i r => aggRow cards avgVal r.timestamp (movingWindow data w i)) 0
      data).filterMap id

/-- Math.floor(ts / m) * m, the bucket floor of the interval grouping. -/
def bucketKey (m ts : Int) : Int := (ts.fdiv m) * m

/-- The rows of one bucket, in input order. -/
def bucketRows (data : List ChartRow) (m k : Int) : List ChartRow :=
  data.filter (fun r => decide (bucketKey m r.timestamp = k))

/-- The shared body of getIntervalAverage and getMedianData: group rows by
bucket floor, emit one aggregated row per bucket in which every card has a
sample, and sort ascending by timestamp.  An interval of one minute is the
identity. -/
def bucketResample (cards : List String) (agg : List ℚ → ℚ) (data : List ChartRow)
    (n : Nat) : List ChartRow :=
  if n = 1 then data
  else
    sortByTs ((dedupInts (data.map (fun r =>
      bucketKey ((n : Int) * 60000) r.timestamp))).filterMap
      (fun k => aggRow cards agg k (bucketRows data ((n : Int) * 60000) k)))

/-- getIntervalAverage of ChartView.tsx (interval of n minutes). -/
def getIntervalAverage (cards : List String) (data : List ChartRow) (n : Nat) :
    List ChartRow :=
  bucketResample cards avgVal data n

/-- The median reduce of getMedianData: sort ascending; an odd count takes
the middle element, an even count averages the two central elements. -/
def medianOf (l : List ℚ) : ℚ :=
  let s := List.insertionSort (fun a b => a ≤ b) l
  let mid := s.length / 2
  if s.length % 2 = 0 then ((s.getD (mid - 1) 0) + (s.getD mid 0)) / 2
  else s.getD mid 0

/-- getMedianData of ChartView.tsx (interval of n minutes). -/
def getMedianData (cards : List String) (data : List ChartRow) (n : Nat) :
    List ChartRow :=
  bucketResample cards medianOf data n

/-! ## Resampler lemmas -/

/-- Sorting preserves membership. -/
theorem mem_sortByTs {r : ChartRow} {l : List ChartRow} :
    r ∈ sortByTs l ↔ r ∈ l :=
  (List.perm_insertionSort rowLE l).mem_iff

/-- Members of an indexed map come from the list. -/
theorem mem_mapWithIdx {α β : Type} {f : Nat → α → β} :
    ∀ (l : List α) (i : Nat) (b : β), b ∈ mapWithIdx f i l →
      ∃ j a, a ∈ l ∧ b = f j a := by
  intro l
  induction l with
  | nil => intro i b hb; simp [mapWithIdx] at hb
  | cons x xs ih =>
    intro i b hb
    simp only [mapWithIdx, List.mem_cons] at hb
    rcases hb with hb | hb
    · exact ⟨i, x, List.mem_cons_self x xs, hb⟩
    · obtain ⟨j, a, ha, hba⟩ := ih (i + 1) b hb
      exact ⟨j, a, List.mem_cons_of_mem _ ha, hba⟩

/-- Looking up a key in a pair list built over the key list itself. -/
theorem lookup_pairs_eq (f : String → Option ℚ) :
    ∀ (cards : List String) (c : String) (v : ℚ), c ∈ cards → f c = some v →
      (cards.filterMap (fun x => (f x).map (fun u => (x, u)))).lookup c = some v := by
  intro cards
  induction cards with
  | nil => intro c v hc _; simp at hc
  | cons x xs ih =>
    intro c v hc hf
    rcases List.mem_cons.mp hc with rfl | hc'
    · simp [List.filterMap_cons, hf, List.lookup]
    · by_cases hx : x = c
      · subst hx
        simp [List.filterMap_cons, hf, List.lookup]
      · cases hfx : f x with
        | none =>
          simp only [List.filterMap_cons, hfx, Option.map_none']
          exact ih c v hc' hf
        | some u =>
          simp only [List.filterMap_cons, hfx, Option.map_some']
          have hcx : (c == x) = false := by simp [Ne.symm hx]
          simp only [List.lookup, hcx]
          exact ih c v hc' hf

/-- An emitted resampler row carries a value for every selected card. -/
theorem aggRow_allPresent {cards : List String} {agg : List ℚ → ℚ} {ts : Int}
    {window : List ChartRow} {r : ChartRow}
    (h : aggRow cards agg ts window = some r) :
    ∀ c ∈ cards, (r.values.lookup c).isSome = true := by
  intro c hc
  unfold aggRow at h
  by_cases hall : cards.all (fun c => (aggValueAt agg window c).isSome) = true
  · rw [if_pos hall] at h
    injection h with h
    subst h
    have hv : (aggValueAt agg window c).isSome = true :=
      List.all_eq_true.mp hall c hc
    obtain ⟨v, hv'⟩ := Option.isSome_iff_exists.mp hv
    have := lookup_pairs_eq (aggValueAt agg window) cards c v hc hv'
    simp only [ChartRow.values] at this ⊢
    rw [this]
    rfl
  · rw [if_neg (by simpa using hall)] at h
    cases h

/-- The timestamp of an emitted resampler row is the window key. -/
theorem aggRow_timestamp {cards : List String} {agg : List ℚ → ℚ} {ts : Int}
    {window : List ChartRow} {r : ChartRow}
    (h : aggRow cards agg ts window = some r) : r.timestamp = ts := by
  unfold aggRow at h
  by_cases hall : cards.all (fun c => (aggValueAt agg window c).isSome) = true
  · rw [if_pos hall] at h
    injection h with h
    subst h
    rfl
  · rw [if_neg (by simpa using hall)] at h
    cases h

/-- Every merged and filtered chart row carries all selected cards. -/
theorem chartRows_allPresent {cards : List String} {h : SensorHistory} {r : ChartRow}
    (hr : r ∈ chartRows cards h) :
    ∀ c ∈ cards, (r.values.lookup c).isSome = true := by
  intro c hc
  have hall := List.of_mem_filter hr
  unfold allPresent at hall
  exact List.all_eq_true.mp hall c hc

/-- The merged chart rows are sorted ascending by timestamp. -/
theorem chartRows_sorted (cards : List String) (h : SensorHistory) :
    (chartRows cards h).Pairwise rowLE := by
  unfold chartRows sortByTs
  exact List.Pairwise.filter _ (List.sorted_insertionSort rowLE _)

/-- Moving-average rows over an all-present input are all-present. -/
theorem getMovingAverage_allPresent {cards : List String} {data : List ChartRow}
    {w : Nat}
    (hdata : ∀ r ∈ data, ∀ c ∈ cards, (r.values.lookup c).isSome = true) :
    ∀ r ∈ getMovingAverage cards data w, ∀ c ∈ cards,
      (r.values.lookup c).isSome = true := by
  intro r hr c hc
  unfold getMovingAverage at hr
  split at hr
  · exact hdata r hr c hc
  · obtain ⟨a, ha, hid⟩ := List.mem_filterMap.mp hr
    obtain ⟨j, x, _, rfl⟩ := mem_mapWithIdx data 0 a ha
    exact aggRow_allPresent (by simpa using hid) c hc

/-- Bucketed rows (interval average and median) are all-present. -/
theorem bucketResample_allPresent {cards : List String} {agg : List ℚ → ℚ}
    {data : List ChartRow} {n : Nat}
    (hdata : ∀ r ∈ data, ∀ c ∈ cards, (r.values.lookup c).isSome = true) :
    ∀ r ∈ bucketResample cards agg data n, ∀ c ∈ cards,
      (r.values.lookup c).isSome = true := by
  intro r hr c hc
  unfold bucketResample at hr
  split at hr
  · exact hdata r hr c hc
  · rw [mem_sortByTs] at hr
    obtain ⟨k, _, hk⟩ := List.mem_filterMap.mp hr
    exact aggRow_allPresent hk c hc

/-- Bucketed rows are sorted ascending when the input is. -/
theorem bucketResample_sorted {cards : List String} {agg : List ℚ → ℚ}
    {data : List ChartRow} {n : Nat} (hdata : data.Pairwise rowLE) :
    (bucketResample cards agg data n).Pairwise rowLE := by
  unfold bucketResample
  split
  · exact hdata
  · exact List.sorted_insertionSort rowLE _

/-- Example input of the resampling row-dropping property: series A with
points at timestamps 0 and 1, series B only at timestamp 0. -/
def exHistAB : SensorHistory :=
  [("A", [⟨0, 1, SensorStatus.normal, "A", "", ""⟩,
          ⟨1, 2, SensorStatus.normal, "A", "", ""⟩]),
   ("B", [⟨0, 10, SensorStatus.normal, "B", "", ""⟩])]

/-- C2: all three resampling strategies over the merged chart input only
emit rows in which every selected card has a value; a row whose window
lacks a card is dropped, never emitted with nulls.  In particular, with
A at timestamps 0 and 1 and B only at 0, no output row of any strategy has
timestamp 1, for every window size and interval. -/
theorem c2_resampling_row_dropping :
    (∀ (cards : List String) (h : SensorHistory) (w : Nat) (r : ChartRow),
      r ∈ getMovingAverage cards (chartRows cards h) w →
      ∀ c ∈ cards, (r.values.lookup c).isSome = true) ∧
    (∀ (cards : List String) (h : SensorHistory) (n : Nat) (r : ChartRow),
      r ∈ getIntervalAverage cards (chartRows cards h) n →
      ∀ c ∈ cards, (r.values.lookup c).isSome = true) ∧
    (∀ (cards : List String) (h : SensorHistory) (n : Nat) (r : ChartRow),
      r ∈ getMedianData cards (chartRows cards h) n →
      ∀ c ∈ cards, (r.values.lookup c).isSome = true) ∧
    (∀ (w : Nat) (r : ChartRow),
      r ∈ getMovingAverage ["A", "B"] (chartRows ["A", "B"] exHistAB) w →
      r.timestamp ≠ 1) ∧
    (∀ (n : Nat) (r : ChartRow),
      r ∈ getIntervalAverage ["A", "B"] (chartRows ["A", "B"] exHistAB) n →
      r.timestamp ≠ 1) ∧
    (∀ (n : Nat) (r : ChartRow),
      r ∈ getMedianData ["A", "B"] (chartRows ["A", "B"] exHistAB) n →
      r.timestamp ≠ 1) := by
  have hch : chartRows ["A", "B"] exHistAB = [⟨0, [("A", 1), ("B", 10)]⟩] := by decide
  refine ⟨?_, ?_, ?_, ?_, ?_, ?_⟩
  · intro cards h w r hr c hc
    exact getMovingAverage_allPresent (fun r hr => chartRows_allPresent hr) r hr c hc
  · intro cards h n r hr c hc
    exact bucketResample_allPresent (fun r hr => chartRows_allPresent hr) r hr c hc
  · intro cards h n r hr c hc
    exact bucketResample_allPresent (fun r hr => chartRows_allPresent hr) r hr c hc
  · intro w r hr
    rw [hch] at hr
    unfold getMovingAverage at hr
    split at hr
    · simp at hr
      subst hr
      decide
    · obtain ⟨a, ha, hid⟩ := List.mem_filterMap.mp hr
      obtain ⟨j, x, hx, rfl⟩ := mem_mapWithIdx _ 0 a ha
      have hts := aggRow_timestamp (by simpa using hid)
      simp at hx
      rw [hts, hx]
      decide
  · intro n r hr
    rw [hch] at hr
    unfold getIntervalAverage bucketResample at hr
    split at hr
    · simp at hr
      subst hr
      decide
    · rw [mem_sortByTs] at hr
      obtain ⟨k, hk, hkr⟩ := List.mem_filterMap.mp hr
      have hk0 : k = 0 := by
        simpa [dedupInts, dedupIntsAux, bucketKey, Int.zero_fdiv] using hk
      have hts := aggRow_timestamp hkr
      rw [hts, hk0]
      decide
  · intro n r hr
    rw [hch] at hr
    unfold getMedianData bucketResample at hr
    split at hr
    · simp at hr
      subst hr
      decide
    · rw [mem_sortByTs] at hr
      obtain ⟨k, hk, hkr⟩ := List.mem_filterMap.mp hr
      have hk0 : k = 0 := by
        simpa [dedupInts, dedupIntsAux, bucketKey, Int.zero_fdiv] using hk
      have hts := aggRow_timestamp hkr
      rw [hts, hk0]
      decide

/-- C2 witness: the moving-average conjunct applied at the example input
with window 1, whose single output row carries both cards. -/
theorem c2_resampling_row_dropping_witness :
    (((ChartRow.mk 0 [("A", 1), ("B", 10)]).values.lookup "A").isSome = true) :=
  c2_resampling_row_dropping.1 ["A", "B"] exHistAB 1 ⟨0, [("A", 1), ("B", 10)]⟩
    (by decide) "A" (by decide)

/-! ## The moving-average window -/

/-- The window that claim C3 ascribes to the moving average: row indices
from i - floor(w / 2) inclusive to i - floor(w / 2) + w exclusive, in
integer arithmetic, intersected with the valid index range. -/
def claimWindowVals (data : List ChartRow) (w i : Nat) (c : String) : List ℚ :=
  rowVals (((List.range data.length).filter (fun (j : Nat) =>
    decide ((i : Int) - ((w / 2 : Nat) : Int) ≤ (j : Int)) &&
      decide ((j : Int) < (i : Int) - ((w / 2 : Nat) : Int) + (w : Int)))).map
    (fun (j : Nat) => data.getD j ⟨0, []⟩)) c

/-- The window the source actually uses: the start index is clamped to 0
first, and the window extends w rows from the clamped start, intersected
with the valid index range. -/
def amendedWindowVals (data : List ChartRow) (w i : Nat) (c : String) : List ℚ :=
  rowVals (((List.range' (i - w / 2) w).filter (fun j => decide (j < data.length))).map
    (fun j => data.getD j ⟨0, []⟩)) c

/-- A slice is the in-range part of the index interval starting at the
slice offset. -/
theorem drop_take_eq_range' {α : Type} (d : α) :
    ∀ (w s : Nat) (l : List α),
      (l.drop s).take w =
        ((List.range' s w).filter (fun j => decide (j < l.length))).map
          (fun j => l.getD j d) := by
  intro w
  induction w with
  | zero => intro s l; simp
  | succ w ih =>
    intro s l
    rw [List.range'_succ, List.filter_cons]
    by_cases hs : s < l.length
    · have hcond : decide (s < l.length) = true := by simpa using hs
      rw [hcond, if_pos rfl, List.drop_eq_getElem_cons hs]
      simp only [List.take_succ_cons, List.map_cons]
      rw [List.getD_eq_getElem l d hs, ih (s + 1) l]
    · rw [List.drop_eq_nil_of_le (by omega), List.take_nil]
      have hnone : ∀ j ∈ List.range' (s + 1) w, ¬ (decide (j < l.length) = true) := by
        intro j hj
        have := (List.mem_range'_1.mp hj).1
        simp only [decide_eq_true_eq]
        omega
      rw [List.filter_eq_nil_iff.mpr hnone]
      simp [hs]

/-- The amended window values are the values of the source slice. -/
theorem amendedWindowVals_eq (data : List ChartRow) (w i : Nat) (c : String) :
    amendedWindowVals data w i c = rowVals (movingWindow data w i) c := by
  unfold amendedWindowVals movingWindow
  rw [← drop_take_eq_range' ⟨0, []⟩ w (i - w / 2) data]

/-- The value an emitted resampler row holds for a selected card is the
aggregate of the values of that card over the window. -/
theorem aggRow_lookup_eq {cards : List String} {agg : List ℚ → ℚ} {ts : Int}
    {window : List ChartRow} {r : ChartRow} {c : String}
    (h : aggRow cards agg ts window = some r) (hc : c ∈ cards) :
    r.values.lookup c = some (agg (rowVals window c)) := by
  unfold aggRow at h
  by_cases hall : cards.all (fun c => (aggValueAt agg window c).isSome) = true
  · rw [if_pos hall] at h
    injection h with h
    subst h
    have hv : (aggValueAt agg window c).isSome = true :=
      List.all_eq_true.mp hall c hc
    have hne : ¬ rowVals window c = [] := by
      intro hemp
      simp [aggValueAt, hemp] at hv
    have hf : aggValueAt agg window c = some (agg (rowVals window c)) := by
      simp [aggValueAt, hne]
    have := lookup_pairs_eq (aggValueAt agg window) cards c _ hc hf
    simpa [ChartRow.values] using this
  · rw [if_neg (by simpa using hall)] at h
    cases h

/-- C3 counterexample: with two rows and window 3 the source returns the
input unchanged (data.length < windowSize), so the first output row holds
value 0 for card a, while the window of the claim covers both rows and
averages to 3/2. -/
theorem c3_counterexample :
    getMovingAverage ["a"] [⟨0, [("a", 0)]⟩, ⟨1, [("a", 3)]⟩] 3 =
      [⟨0, [("a", 0)]⟩, ⟨1, [("a", 3)]⟩] ∧
    ((⟨0, [("a", 0)]⟩ : ChartRow).values.lookup "a") = some 0 ∧
    avgVal (claimWindowVals [⟨0, [("a", 0)]⟩, ⟨1, [("a", 3)]⟩] 3 0 "a") = 3 / 2 ∧
    (0 : ℚ) ≠ 3 / 2 := by
  refine ⟨by decide, by decide, ?_, by norm_num⟩
  have hv : claimWindowVals [⟨0, [("a", 0)]⟩, ⟨1, [("a", 3)]⟩] 3 0 "a" =
      [0, 3] := by decide
  rw [hv]
  norm_num [avgVal]

/-- C3 amended: window size 1, or fewer rows than the window, returns the
input unchanged; otherwise the output is the per-index aggregation of the
slice windows, and every emitted value for a selected card is the
arithmetic mean of that card's values over the indices in
[max(0, i - floor(w / 2)), max(0, i - floor(w / 2)) + w) intersected with
the valid range (the source clamps the start at 0 before extending by w,
rather than intersecting the unclamped interval). -/
theorem c3_amended (cards : List String) (data : List ChartRow) (w : Nat) :
    (w = 1 → getMovingAverage cards data w = data) ∧
    (data.length < w → getMovingAverage cards data w = data) ∧
    (¬ (w = 1 ∨ data.length < w) →
      getMovingAverage cards data w =
        (mapWithIdx (fun i r => aggRow cards avgVal r.timestamp (movingWindow data w i))
          0 data).filterMap id) ∧
    (∀ (i : Nat) (r : ChartRow) (c : String),
      aggRow cards avgVal (data.getD i ⟨0, []⟩).timestamp (movingWindow data w i) =
        some r →
      c ∈ cards →
      r.values.lookup c = some (avgVal (amendedWindowVals data w i c))) := by
  refine ⟨?_, ?_, ?_, ?_⟩
  · intro hw
    unfold getMovingAverage
    rw [if_pos (Or.inl hw)]
  · intro hw
    unfold getMovingAverage
    rw [if_pos (Or.inr hw)]
  · intro hw
    unfold getMovingAverage
    rw [if_neg hw]
  · intro i r c hr hc
    rw [amendedWindowVals_eq]
    exact aggRow_lookup_eq hr hc

/-- C3 witness: the amended mean formula applied at a concrete three-row
input with window 3 at index 0. -/
theorem c3_amended_witness :
    (ChartRow.mk 0 [("a", 2)]).values.lookup "a" =
      some (avgVal (amendedWindowVals
        [⟨0, [("a", 1)]⟩, ⟨1, [("a", 2)]⟩, ⟨2, [("a", 3)]⟩] 3 0 "a")) := by
  refine (c3_amended ["a"] [⟨0, [("a", 1)]⟩, ⟨1, [("a", 2)]⟩, ⟨2, [("a", 3)]⟩] 3).2.2.2
    0 ⟨0, [("a", 2)]⟩ "a" ?_ (by decide)
  have h1 : rowVals (movingWindow
      [⟨0, [("a", 1)]⟩, ⟨1, [("a", 2)]⟩, ⟨2, [("a", 3)]⟩] 3 0) "a" = [1, 2, 3] := by
    decide
  simp [aggRow, aggValueAt, h1, avgVal]
  norm_num

/-- C6: every value of an emitted median bucket row is the statistical
median of that card's values in the bucket (ascending sort; odd counts take
the middle element, even counts average the two central ones, so [1,2,3,4]
gives 5/2 and [1,2,3] gives 2), and the median output over the merged chart
input is sorted ascending by timestamp. -/
theorem c6_median_bucketing :
    (∀ (cards : List String) (data : List ChartRow) (n : Nat) (k : Int)
      (r : ChartRow) (c : String),
      aggRow cards medianOf k (bucketRows data ((n : Int) * 60000) k) = some r →
      c ∈ cards →
      r.values.lookup c =
        some (medianOf (rowVals (bucketRows data ((n : Int) * 60000) k) c))) ∧
    medianOf [1, 2, 3, 4] = 5 / 2 ∧
    medianOf [1, 2, 3] = 2 ∧
    (∀ (cards : List String) (h : SensorHistory) (n : Nat),
      (getMedianData cards (chartRows cards h) n).Pairwise rowLE) := by
  refine ⟨?_, ?_, ?_, ?_⟩
  · intro cards data n k r c hr hc
    exact aggRow_lookup_eq hr hc
  · have hs : List.insertionSort (fun a b => a ≤ b) ([1, 2, 3, 4] : List ℚ) =
        [1, 2, 3, 4] := by decide
    simp [medianOf, hs]
    norm_num
  · have hs : List.insertionSort (fun a b => a ≤ b) ([1, 2, 3] : List ℚ) =
        [1, 2, 3] := by decide
    simp [medianOf, hs]
  · intro cards h n
    exact bucketResample_sorted (chartRows_sorted cards h)

/-- C6 witness: the bucket-median equation applied at a concrete four-row
bucket with values 1, 2, 3, 4. -/
theorem c6_median_bucketing_witness :
    (ChartRow.mk 0 [("a", 5 / 2)]).values.lookup "a" =
      some (medianOf (rowVals (bucketRows
        [⟨0, [("a", 1)]⟩, ⟨1, [("a", 2)]⟩, ⟨2, [("a", 3)]⟩, ⟨3, [("a", 4)]⟩]
        (((2 : Nat) : Int) * 60000) 0) "a")) := by
  refine c6_median_bucketing.1 ["a"]
    [⟨0, [("a", 1)]⟩, ⟨1, [("a", 2)]⟩, ⟨2, [("a", 3)]⟩, ⟨3, [("a", 4)]⟩] 2 0
    ⟨0, [("a", 5 / 2)]⟩ "a" ?_ (by decide)
  have hm : ((2 : Nat) : Int) * 60000 = (120000 : Int) := by norm_num
  rw [hm]
  have h1 : rowVals (bucketRows
      [⟨0, [("a", 1)]⟩, ⟨1, [("a", 2)]⟩, ⟨2, [("a", 3)]⟩, ⟨3, [("a", 4)]⟩]
      (120000 : Int) 0) "a" = [1, 2, 3, 4] := by decide
  have hs : List.insertionSort (fun a b => a ≤ b) ([1, 2, 3, 4] : List ℚ) =
      [1, 2, 3, 4] := by decide
  simp [aggRow, aggValueAt, h1, medianOf, hs]
  norm_num
